import Mathlib

/-!
Shallow embedding of `src/preprocessing.py` from the india-forestry-analytics
repository.  Python strings are modelled as lists of Unicode code points
(`List Nat`) with ASCII casing/whitespace semantics; Python floats are
modelled by the inductive `PyFloat`, whose finite values are exact rationals
(rounding of IEEE doubles is not modelled, but the overflow saturation of
CPython's `float(str)` to an infinity is); pandas DataFrames
are modelled by `Table` (a rectangular list of rows over a list of column
names).  Fallible Python code is modelled with `Except`.
-/

set_option exponentiation.threshold 1100

namespace Forestry

/-! ### Character-level model of Python string operations (ASCII semantics) -/

/-- Python whitespace test for an ASCII code point (space, TAB..CR). -/
def isPySpace (c : Nat) : Bool := decide (c = 32 ∨ (9 ≤ c ∧ c ≤ 13))

/-- Whether an ASCII code point is a cased (alphabetic) character. -/
def isCased (c : Nat) : Bool := decide ((65 ≤ c ∧ c ≤ 90) ∨ (97 ≤ c ∧ c ≤ 122))

/-- ASCII uppercasing of one code point. -/
def toUp (c : Nat) : Nat := if 97 ≤ c ∧ c ≤ 122 then c - 32 else c

/-- ASCII lowercasing of one code point. -/
def toLo (c : Nat) : Nat := if 65 ≤ c ∧ c ≤ 90 then c + 32 else c

/-- Encode a Lean string literal as a list of code points. -/
def enc (s : String) : List Nat := s.data.map Char.toNat

/-- Remove trailing whitespace (the right half of Python `str.strip`). -/
def rstrip : List Nat → List Nat
  | [] => []
  | c :: cs =>
    match rstrip cs with
    | [] => if isPySpace c then [] else [c]
    | r => c :: r

/-- Remove leading whitespace (the left half of Python `str.strip`). -/
def lstrip (s : List Nat) : List Nat := s.dropWhile isPySpace

/-- Python `str.strip()`: remove surrounding whitespace. -/
def pyStrip (s : List Nat) : List Nat := rstrip (lstrip s)

/-- Worker for Python `str.title()`: `b` records whether the previous
character was cased; a cased character is uppercased at a word start and
lowercased otherwise. -/
def titleAux (b : Bool) : List Nat → List Nat
  | [] => []
  | c :: cs => (if b then toLo c else toUp c) :: titleAux (isCased c) cs

/-- Python `str.title()`. -/
def pyTitle (s : List Nat) : List Nat := titleAux false s

/-! ### Model of Python `float(str)` parsing -/

/-- A Python float: a finite value (modelled exactly as `num / 10 ^ den`,
kept canonical by `norm10` so that equal decimal values have equal
representations), an infinity, or NaN.  IEEE-754 rounding is not modelled
(in-range and subnormal values stay exact rationals), but overflow is:
`mkFinite` saturates to an infinity exactly where CPython's correctly
rounded `float(str)` does. -/
inductive PyFloat where
  | finite (num : Int) (den : Nat)
  | inf
  | ninf
  | nan
deriving DecidableEq

/-- Whether a Python float is finite. -/
def PyFloat.isFinite : PyFloat → Bool
  | .finite _ _ => true
  | _ => false

/-- The zero float. -/
def PyFloat.zero : PyFloat := .finite 0 0

def isDigit (c : Nat) : Bool := decide (48 ≤ c ∧ c ≤ 57)

def digitVal (c : Nat) : Nat := c - 48

/-- Consume a maximal run of decimal digits with single underscores allowed
between digits (Python numeric-literal syntax); returns the accumulated
value, the number of digits consumed, and the remaining input. -/
def digsGo (acc n : Nat) : List Nat → Nat × Nat × List Nat
  | [] => (acc, n, [])
  | c :: rest =>
    if isDigit c then digsGo (acc * 10 + digitVal c) (n + 1) rest
    else if c = 95 then
      match rest with
      | d :: rest2 =>
        if isDigit d then digsGo (acc * 10 + digitVal d) (n + 1) rest2
        else (acc, n, c :: d :: rest2)
      | [] => (acc, n, [c])
    else (acc, n, c :: rest)

/-- Parse a Python `digitpart` (at least one digit, underscores allowed
between digits). -/
def digPart (s : List Nat) : Option (Nat × Nat × List Nat) :=
  match s with
  | c :: rest => if isDigit c then some (digsGo (digitVal c) 1 rest) else none
  | [] => none

/-- Consume an optional sign; returns whether the sign was negative. -/
def parseSign : List Nat → Bool × List Nat
  | c :: rest =>
    if c = 43 then (false, rest)
    else if c = 45 then (true, rest)
    else (false, c :: rest)
  | [] => (false, [])

/-- Parse the mantissa of a float literal: `digits [. digits]`, `digits .`,
or `. digits`; returns its value as `num / 10 ^ k` (a pair `(num, k)`) and
the remaining input. -/
def parseMantissa (t : List Nat) : Option ((Nat × Nat) × List Nat) :=
  match digPart t with
  | some (i, _, rest) =>
    match rest with
    | 46 :: rest2 =>
      match digPart rest2 with
      | some (f, k, rest3) => some ((i * 10 ^ k + f, k), rest3)
      | none => some ((i, 0), rest2)
    | _ => some ((i, 0), rest)
  | none =>
    match t with
    | 46 :: rest2 =>
      match digPart rest2 with
      | some (f, k, rest3) => some ((f, k), rest3)
      | none => none
    | _ => none

/-- Parse an optional exponent `(e|E) [sign] digits`; if the digits are
missing the exponent marker is not consumed. -/
def parseExp (t : List Nat) : Int × List Nat :=
  match t with
  | c :: rest =>
    if c = 101 ∨ c = 69 then
      match parseSign rest with
      | (negE, r2) =>
        match digPart r2 with
        | some (e, _, r3) => ((if negE then -(e : Int) else (e : Int)), r3)
        | none => (0, c :: rest)
    else (0, c :: rest)
  | [] => (0, [])

/-- Strip factors of ten shared by `num` and `10 ^ den`, making the decimal
pair representation canonical (equal decimal values get equal pairs). -/
def norm10 : Nat → Nat → Nat × Nat
  | n, 0 => (n, 0)
  | n, d + 1 => if n % 10 = 0 then norm10 (n / 10) d else (n, d + 1)

/-- The smallest magnitude that rounds to infinity in IEEE binary64 under
round-to-nearest-even: the midpoint `2 ^ 970 * (2 ^ 54 - 1)` between the
largest finite double `(2 ^ 53 - 1) * 2 ^ 971` and `2 ^ 1024` (a tie, which
rounds to the even `2 ^ 1024`).  CPython's `float(str)` is correctly
rounded, so `float("1e999")` saturates to `inf` at exactly this bound. -/
def overflowBound : Nat := 2 ^ 970 * (2 ^ 54 - 1)

/-- Assemble a finite float from sign, mantissa pair `num / 10 ^ k` and
decimal exponent `e`, in canonical form, saturating to a signed infinity
when the value reaches the IEEE binary64 overflow threshold (as CPython's
`float(str)` does on overflow, e.g. `float("1e999") == inf`). -/
def mkFinite (neg : Bool) (num k : Nat) (e : Int) : PyFloat :=
  let dz : Int := (k : Int) - e
  let p : Nat × Nat :=
    if 0 ≤ dz then norm10 num dz.toNat else (num * 10 ^ (-dz).toNat, 0)
  if overflowBound * 10 ^ p.2 ≤ p.1 then (if neg then .ninf else .inf)
  else .finite (if neg then -(p.1 : Int) else (p.1 : Int)) p.2

/-- Model of CPython `float(str)`: strip surrounding whitespace, consume an
optional sign, accept `inf`/`infinity`/`nan` case-insensitively, otherwise
parse a decimal literal with optional fraction and exponent; the whole
string must be consumed. -/
def pyFloatParse (s0 : List Nat) : Option PyFloat :=
  let s := pyStrip s0
  match parseSign s with
  | (neg, t) =>
    let tl := t.map toLo
    if tl = enc "inf" ∨ tl = enc "infinity" then
      some (if neg then .ninf else .inf)
    else if tl = enc "nan" then some .nan
    else
      match parseMantissa t with
      | none => none
      | some ((num, k), rest) =>
        match parseExp rest with
        | (e, rest2) =>
          if rest2 = [] then some (mkFinite neg num k e) else none

/-! ### Python values and the two cell-cleaning helpers -/

/-- A Python value as it can appear in a DataFrame cell: a string, a float,
an int, or `None`. -/
inductive PyVal where
  | vstr (s : List Nat)
  | vfloat (f : PyFloat)
  | vint (n : Int)
  | vnone
deriving DecidableEq

/-- `pd.isna`: true exactly for `None` and float NaN. -/
def isna : PyVal → Bool
  | .vnone => true
  | .vfloat .nan => true
  | _ => false

/-- A Python exception escaping `load_data`. -/
inductive PyExc where
  | attributeError
  | keyError (col : String)
  | pdParserError
deriving DecidableEq

/-- The `replacements` dict of `clean_state_name` (source lines 34-41),
in source order. -/
def replacements : List (List Nat × List Nat) :=
  [ (enc "Andhra Pradesh", enc "Andhra Pradesh"),
    (enc "Arunachal Pradesh", enc "Arunachal Pradesh"),
    (enc "Jammu & Kashmir", enc "Jammu & Kashmir"),
    (enc "A & N Islands", enc "Andaman & Nicobar Islands"),
    (enc "Andaman & Nicobar", enc "Andaman & Nicobar Islands") ]

/-- `replacements.get(name, name)`. -/
def aliasGet (s : List Nat) : List Nat :=
  match replacements.lookup s with
  | some v => v
  | none => s

/-- The string path of `clean_state_name`:
`replacements.get(name.strip().title(), name.strip().title())`. -/
def cleanName (s : List Nat) : List Nat := aliasGet (pyTitle (pyStrip s))

/-- `clean_state_name` (source lines 30-42): `"Unknown"` for NA input,
strip + title + alias lookup for strings; any other value raises
`AttributeError` at `name.strip()`. -/
def clean_state_name (v : PyVal) : Except PyExc PyVal :=
  if isna v then .ok (.vstr (enc "Unknown"))
  else
    match v with
    | .vstr s => .ok (.vstr (cleanName s))
    | _ => .error .attributeError

/-- `val.replace(',', '')`: remove every comma. -/
def removeCommas (s : List Nat) : List Nat := s.filter (fun c => c ≠ 44)

/-- `clean_numeric` (source lines 68-75): strings have commas removed and
are parsed with `float`, any parse failure yielding `0.0`; every non-string
value is returned unchanged. -/
def clean_numeric (v : PyVal) : PyVal :=
  match v with
  | .vstr s =>
    match pyFloatParse (removeCommas s) with
    | some f => .vfloat f
    | none => .vfloat .zero
  | _ => v

example : cleanName (enc " andhra pradesh ") = enc "Andhra Pradesh" := by decide
example : cleanName (enc "A & N Islands") = enc "Andaman & Nicobar Islands" := by decide
example : clean_numeric (.vstr (enc "2,75,069")) = .vfloat (.finite 275069 0) := by decide
example : clean_numeric (.vstr (enc "N/A")) = .vfloat (.finite 0 0) := by decide
example : clean_numeric (.vstr (enc "inf")) = .vfloat .inf := by decide
example : clean_numeric (.vstr (enc "1e999")) = .vfloat .inf := by decide
example : clean_numeric (.vstr (enc "-1e999")) = .vfloat .ninf := by decide
example : clean_numeric (.vstr (enc "1.7976931348623157e308")) ≠ .vfloat .inf := by decide
example : clean_numeric (.vstr (enc "2e308")) = .vfloat .inf := by decide
example : clean_numeric (.vstr (enc "1_0.5e1")) = .vfloat (.finite 105 0) := by decide
example : clean_numeric (.vstr (enc "1_.5")) = .vfloat (.finite 0 0) := by decide
example : clean_numeric (.vstr (enc " -2.5e-1")) = .vfloat (.finite (-25) 2) := by decide
example : clean_numeric (.vstr (enc "0.50")) = clean_numeric (.vstr (enc "5e-1")) := by decide
example : clean_numeric (.vfloat .nan) = .vfloat .nan := by decide
example : clean_numeric (.vint (-3)) = .vint (-3) := by decide

/-! ### DataFrame model -/

/-- A pandas DataFrame: named columns over rectangular rows. -/
structure Table where
  cols : List String
  rows : List (List PyVal)
  wf : ∀ r ∈ rows, r.length = cols.length

/-- Index of a column name (pandas locates the first occurrence). -/
def colIdx (t : Table) (c : String) : Option Nat := t.cols.findIdx? (· = c)

/-- `c in df.columns`. -/
def hasCol (t : Table) (c : String) : Bool := (colIdx t c).isSome

/-- The values of column `c` (a pandas Series), `[]` if the column is
missing. -/
def colVals (t : Table) (c : String) : List PyVal :=
  match colIdx t c with
  | some i => t.rows.map (fun r => r.getD i .vnone)
  | none => []

/-- `mapM` over `Except`, stopping at the first error, written by hand so
that induction is direct. -/
def exMapM (f : α → Except PyExc β) : List α → Except PyExc (List β)
  | [] => .ok []
  | a :: as =>
    match f a with
    | .error e => .error e
    | .ok b =>
      match exMapM f as with
      | .error e => .error e
      | .ok bs => .ok (b :: bs)

/-- `df[c] = series`: replace column `c` in place when it exists, otherwise
append it on the right (pandas column assignment). -/
def setCol (t : Table) (c : String) (vs : List PyVal) : Table :=
  match h : colIdx t c with
  | some i =>
    { cols := t.cols
      rows := (t.rows.zip vs).map (fun p => p.1.set i p.2)
      wf := by
        intro r hr
        obtain ⟨⟨a, b⟩, hab, rfl⟩ := List.mem_map.1 hr
        simp [t.wf a (List.of_mem_zip hab).1] }
  | none =>
    { cols := t.cols ++ [c]
      rows := (t.rows.zip vs).map (fun p => p.1 ++ [p.2])
      wf := by
        intro r hr
        obtain ⟨⟨a, b⟩, hab, rfl⟩ := List.mem_map.1 hr
        simp [t.wf a (List.of_mem_zip hab).1] }

/-- `df[cs]`: column selection, `KeyError` on the first missing name.  In
the success case every listed column exists, so reading each cell through
`(colIdx t c).getD 0` picks exactly the named columns. -/
def selectCols (t : Table) (cs : List String) : Except PyExc Table :=
  match exMapM (fun c =>
      match colIdx t c with
      | some i => .ok i
      | none => .error (.keyError c)) cs with
  | .error e => .error e
  | .ok _ =>
    .ok { cols := cs
          rows := t.rows.map (fun r => cs.map (fun c => r.getD ((colIdx t c).getD 0) .vnone))
          wf := by
            intro r hr
            obtain ⟨a, _, rfl⟩ := List.mem_map.1 hr
            simp }

/-- The conditional name-normalisation step (source lines 48-64):
`if raw in df.columns: df['State'] = df[raw].apply(clean_state_name)`. -/
def normStep (t : Table) (raw : String) : Except PyExc Table :=
  if hasCol t raw then
    match exMapM clean_state_name (colVals t raw) with
    | .error e => .error e
    | .ok vs => .ok (setCol t "State" vs)
  else .ok t

/-- The conditional numeric-coercion step (source lines 77-90):
`if c in df.columns: df[c] = df[c].apply(clean_numeric)`. -/
def numStep (t : Table) (c : String) : Table :=
  match colIdx t c with
  | some i =>
    { cols := t.cols
      rows := t.rows.map (fun r => r.set i (clean_numeric (r.getD i .vnone)))
      wf := by
        intro r hr
        obtain ⟨a, ha, rfl⟩ := List.mem_map.1 hr
        simp [t.wf a ha] }
  | none => t

/-- The row block of a left merge: for each left row in order, one output
row per matching right row (in right order), or a single row padded with
`nfill` NaN cells when nothing matches. -/
def mergeRows (lrows rrows : List (List PyVal)) (li ri nfill : Nat) :
    List (List PyVal) :=
  lrows.flatMap (fun lrow =>
    match rrows.filter (fun rrow => rrow.getD ri .vnone == lrow.getD li .vnone) with
    | [] => [lrow ++ List.replicate nfill (PyVal.vfloat .nan)]
    | ms => ms.map (fun rrow => lrow ++ rrow.eraseIdx ri))

/-- `pd.merge(l, r, on=key, how='left')`.  Overlap suffixing is not
modelled (the merged column sets in this program never overlap off the
key). -/
def mergeLeft (l r : Table) (key : String) : Table :=
  { cols := l.cols ++ r.cols.eraseIdx ((colIdx r key).getD 0)
    rows := mergeRows l.rows r.rows ((colIdx l key).getD 0) ((colIdx r key).getD 0)
      (r.cols.eraseIdx ((colIdx r key).getD 0)).length
    wf := by
      intro row hrow
      obtain ⟨lrow, hl, hm⟩ := List.mem_flatMap.1 hrow
      have hlen := l.wf lrow hl
      cases hms : r.rows.filter (fun rrow =>
          rrow.getD ((colIdx r key).getD 0) .vnone ==
            lrow.getD ((colIdx l key).getD 0) .vnone) with
      | nil =>
        rw [hms] at hm
        simp only [List.mem_singleton] at hm
        subst hm
        simp [hlen]
      | cons m ms' =>
        rw [hms] at hm
        obtain ⟨rrow, hrm, rfl⟩ := List.mem_map.1 hm
        have hrf : rrow ∈ r.rows.filter (fun rrow =>
            rrow.getD ((colIdx r key).getD 0) .vnone ==
              lrow.getD ((colIdx l key).getD 0) .vnone) := by
          rw [hms]; exact hrm
        have hrlen := r.wf rrow (List.mem_of_mem_filter hrf)
        simp only [List.length_append, List.length_eraseIdx, hrlen, hlen] }

/-- `df.fillna(0)`: every NA cell becomes zero (modelled uniformly as the
float `0.0`, which is what pandas stores in the numeric columns of this
program). -/
def fillna0 (t : Table) : Table :=
  { cols := t.cols
    rows := t.rows.map (fun r => r.map (fun v => if isna v then .vfloat .zero else v))
    wf := by
      intro r hr
      obtain ⟨a, ha, rfl⟩ := List.mem_map.1 hr
      simp [t.wf a ha] }

/-! ### The loader -/

/-- Why reading one CSV failed: the file is missing (`FileNotFoundError`,
which the source catches) or its structure is unparsable (pandas
`ParserError`, which it does not catch). -/
inductive ReadErr where
  | fileNotFound
  | unparsable
deriving DecidableEq

/-- The five tables of the success dictionary returned by `load_data`. -/
structure Loaded where
  forest : Table
  tree : Table
  mangrove : Table
  agro : Table
  master : Table

/-- Outcome of a `load_data` call: the `(dict, None)` success return, the
`(None, msg)` error return (carrying the failing path), or an uncaught
exception propagating out of the function. -/
inductive LoadResult where
  | ok (d : Loaded)
  | errReturn (path : String)
  | raised (e : PyExc)

def forestPath : String := "Recorded_Forest_Area.csv"

def treePath : String := "StatewiseTreeCover.csv"

def mangrovePath : String :=
  "19360- Dataful/mangroves-year-and-state-wise-mangrove-forest-cover-in-india-since-1987.csv"

def agroPath : String := "Agro_India_States.csv"

/-- How one failed `pd.read_csv` surfaces: `FileNotFoundError` is caught
and turned into the `(None, f"Error loading file: {e}")` return (the
message names the failing path); any other read failure propagates. -/
def readOutcome : ReadErr → String → LoadResult
  | .fileNotFound, p => .errReturn p
  | .unparsable, _ => .raised .pdParserError

/-- Source lines 28-113: normalisation, coercion, selection, the two left
joins and the zero fill, with any exception propagating. -/
def buildTables (tF tT tM tA : Table) : Except PyExc Loaded :=
  match normStep tF "State/UTs" with
  | .error e => .error e
  | .ok dfF =>
  match normStep tT "State/ Uts" with
  | .error e => .error e
  | .ok dfT =>
  match normStep tM "state" with
  | .error e => .error e
  | .ok dfM =>
  match normStep tA "States" with
  | .error e => .error e
  | .ok dfA =>
  let dfF2 := numStep (numStep dfF "Geographical Area") "Recorded Forest Area - Total"
  let dfM2 := numStep dfM "value"
  let dfT2 := numStep dfT "Tree Cover - Area"
  match selectCols dfF2 ["State", "Recorded Forest Area - Total", "Geographical Area"] with
  | .error e => .error e
  | .ok m0 =>
  match selectCols dfT2 ["State", "Tree Cover - Area"] with
  | .error e => .error e
  | .ok tSel =>
  let m1 := mergeLeft m0 tSel "State"
  match (if hasCol dfA "Precipitation_mm" then
            (selectCols dfA ["State", "Precipitation_mm"]).map
              (fun aSel => mergeLeft m1 aSel "State")
          else .ok m1) with
  | .error e => .error e
  | .ok m2 => .ok ⟨dfF2, dfT2, dfM2, dfA, fillna0 m2⟩

/-- `load_data` (source lines 4-113): read the four sources in order
(line 20-26 `try`/`except FileNotFoundError`), then clean and merge. -/
def load_data (rF rT rM rA : Except ReadErr Table) : LoadResult :=
  match rF with
  | .error e => readOutcome e forestPath
  | .ok tF =>
  match rT with
  | .error e => readOutcome e treePath
  | .ok tT =>
  match rM with
  | .error e => readOutcome e mangrovePath
  | .ok tM =>
  match rA with
  | .error e => readOutcome e agroPath
  | .ok tA =>
  match buildTables tF tT tM tA with
  | .error e => .raised e
  | .ok d => .ok d

/-! ### Projections on outcomes -/

def emptyTable : Table := ⟨[], [], by intro r hr; cases hr⟩

def isOk : LoadResult → Bool
  | .ok _ => true
  | _ => false

def masterOf : LoadResult → Table
  | .ok d => d.master
  | _ => emptyTable

def forestOf : LoadResult → Table
  | .ok d => d.forest
  | _ => emptyTable

def treeOf : LoadResult → Table
  | .ok d => d.tree
  | _ => emptyTable

def agroOf : LoadResult → Table
  | .ok d => d.agro
  | _ => emptyTable

def raisedExc : LoadResult → Option PyExc
  | .raised e => some e
  | _ => none

def errPath : LoadResult → Option String
  | .errReturn p => some p
  | _ => none

/-! ### Concrete input tables used by counterexamples and witnesses -/

/-- A one-row Forest table for region `"X"`. -/
def exForest : Table :=
  { cols := ["State/UTs", "Recorded Forest Area - Total", "Geographical Area"]
    rows := [[.vstr (enc "X"), .vstr (enc "10"), .vstr (enc "100")]]
    wf := by decide }

/-- A Tree table holding two rows for the same region `"X"`. -/
def exTreeDup : Table :=
  { cols := ["State/ Uts", "Tree Cover - Area"]
    rows := [[.vstr (enc "X"), .vstr (enc "1")], [.vstr (enc "X"), .vstr (enc "2")]]
    wf := by decide }

/-- An empty table with no columns (its normalisation and coercion steps
are all skipped). -/
def exEmpty : Table := { cols := [], rows := [], wf := by decide }

/-- A Tree table with the right columns but no rows. -/
def exTreeNone : Table :=
  { cols := ["State/ Uts", "Tree Cover - Area"], rows := [], wf := by decide }

/-- A Tree table with exactly one row matching the single anchor region. -/
def exTreeOne : Table :=
  { cols := ["State/ Uts", "Tree Cover - Area"]
    rows := [[.vstr (enc "X"), .vstr (enc "1")]]
    wf := by decide }

/-- A Forest table whose forest-area cell is the string `"inf"`. -/
def exForestInf : Table :=
  { cols := ["State/UTs", "Recorded Forest Area - Total", "Geographical Area"]
    rows := [[.vstr (enc "X"), .vstr (enc "inf"), .vstr (enc "100")]]
    wf := by decide }

/-- A cell that is a finite float or NA (what numeric coercion produces on
every input that does not spell an infinity or NaN). -/
def finOrNA (v : PyVal) : Bool :=
  match v with
  | .vfloat (.finite _ _) => true
  | _ => isna v

/-- A cell holding a finite float. -/
def isFiniteFloat (v : PyVal) : Bool :=
  match v with
  | .vfloat f => f.isFinite
  | _ => false

/-- A column whose cells are all NA or strings, so that
`apply(clean_state_name)` cannot raise on it. -/
def nameColCleanable (t : Table) (c : String) : Prop :=
  ∀ v ∈ colVals t c, isna v = true ∨ ∃ s, v = PyVal.vstr s

example :
    isOk (load_data (.ok exForest) (.ok exTreeDup) (.ok exEmpty) (.ok exEmpty)) = true := by
  decide

example :
    (masterOf (load_data (.ok exForest) (.ok exTreeDup) (.ok exEmpty) (.ok exEmpty))).rows.length
      = 2 := by
  decide

example :
    colVals (masterOf (load_data (.ok exForest) (.ok exTreeNone) (.ok exEmpty) (.ok exEmpty)))
      "Tree Cover - Area" = [.vfloat .zero] := by
  decide

example :
    raisedExc (load_data (.ok exEmpty) (.ok exEmpty) (.ok exEmpty) (.ok exEmpty))
      = some (.keyError "State") := by
  decide

example :
    errPath (load_data (.error .fileNotFound) (.ok exEmpty) (.ok exEmpty) (.ok exEmpty))
      = some forestPath := by
  decide

/-! ### Lemmas about the string pipeline -/

theorem toUp_toUp (c : Nat) : toUp (toUp c) = toUp c := by
  unfold toUp
  split_ifs <;> omega

theorem toLo_toLo (c : Nat) : toLo (toLo c) = toLo c := by
  unfold toLo
  split_ifs <;> omega

theorem isCased_toUp (c : Nat) : isCased (toUp c) = isCased c := by
  unfold isCased toUp
  split_ifs <;> first
    | rfl
    | (simp only [decide_eq_decide]; omega)

theorem isCased_toLo (c : Nat) : isCased (toLo c) = isCased c := by
  unfold isCased toLo
  split_ifs <;> first
    | rfl
    | (simp only [decide_eq_decide]; omega)

theorem isPySpace_toUp (c : Nat) : isPySpace (toUp c) = isPySpace c := by
  unfold isPySpace toUp
  split_ifs <;> first
    | rfl
    | (simp only [decide_eq_decide]; omega)

theorem isPySpace_toLo (c : Nat) : isPySpace (toLo c) = isPySpace c := by
  unfold isPySpace toLo
  split_ifs <;> first
    | rfl
    | (simp only [decide_eq_decide]; omega)

theorem titleAux_titleAux (b : Bool) (s : List Nat) :
    titleAux b (titleAux b s) = titleAux b s := by
  induction s generalizing b with
  | nil => rfl
  | cons c cs ih =>
    cases b with
    | false => simp [titleAux, toUp_toUp, isCased_toUp, ih]
    | true => simp [titleAux, toLo_toLo, isCased_toLo, ih]

theorem rstrip_cons (c : Nat) (cs : List Nat) :
    rstrip (c :: cs) =
      match rstrip cs with
      | [] => if isPySpace c then [] else [c]
      | r => c :: r := rfl

theorem rstrip_rstrip (s : List Nat) : rstrip (rstrip s) = rstrip s := by
  induction s with
  | nil => rfl
  | cons c cs ih =>
    rw [rstrip_cons]
    cases h : rstrip cs with
    | nil =>
      by_cases hc : isPySpace c
      · rw [if_pos hc]
        rfl
      · rw [if_neg hc]
        simp [rstrip_cons, rstrip, hc]
    | cons m ms =>
      have h2 : rstrip (m :: ms) = m :: ms := by rw [← h, ih, h]
      simp only [rstrip_cons, h2]

theorem lstrip_idem (s : List Nat) : lstrip (lstrip s) = lstrip s := by
  induction s with
  | nil => rfl
  | cons c cs ih =>
    by_cases h : isPySpace c
    · simp [lstrip, List.dropWhile_cons, h] at ih ⊢
      exact ih
    · simp [lstrip, List.dropWhile_cons, h]

theorem head_not_space_of_lstrip {c : Nat} {cs : List Nat}
    (h : lstrip (c :: cs) = c :: cs) : isPySpace c = false := by
  by_contra hx
  have hc : isPySpace c = true := by
    cases hb : isPySpace c
    · exact absurd hb hx
    · rfl
  simp only [lstrip, List.dropWhile_cons, hc, if_true] at h
  have hle := (List.dropWhile_sublist (l := cs) isPySpace).length_le
  rw [h] at hle
  simp at hle

theorem lstrip_rstrip_of_lstrip (u : List Nat) (h : lstrip u = u) :
    lstrip (rstrip u) = rstrip u := by
  cases u with
  | nil => rfl
  | cons c cs =>
    have hc := head_not_space_of_lstrip h
    rw [rstrip_cons]
    cases rstrip cs with
    | nil => simp [hc, lstrip, List.dropWhile_cons]
    | cons m ms => simp [hc, lstrip, List.dropWhile_cons]

theorem titleAux_cons (b : Bool) (c : Nat) (cs : List Nat) :
    titleAux b (c :: cs) = (if b then toLo c else toUp c) :: titleAux (isCased c) cs := rfl

theorem isPySpace_titleHead (b : Bool) (c : Nat) :
    isPySpace (if b then toLo c else toUp c) = isPySpace c := by
  cases b
  · exact isPySpace_toUp c
  · exact isPySpace_toLo c

theorem rstrip_titleAux (b : Bool) (u : List Nat) (h : rstrip u = u) :
    rstrip (titleAux b u) = titleAux b u := by
  induction u generalizing b with
  | nil => rfl
  | cons c cs ih =>
    rw [rstrip_cons] at h
    cases hcs : rstrip cs with
    | nil =>
      rw [hcs] at h
      by_cases hc : isPySpace c
      · rw [if_pos hc] at h
        cases h
      · rw [if_neg hc] at h
        have hcs0 : cs = [] := by
          cases h
          rfl
        subst hcs0
        rw [titleAux_cons]
        simp only [titleAux, rstrip_cons, rstrip, isPySpace_titleHead]
        simp [hc]
    | cons m ms =>
      rw [hcs] at h
      have hcseq : cs = m :: ms := by
        cases h
        rfl
      have hfix : rstrip cs = cs := by rw [hcs, hcseq]
      rw [titleAux_cons, rstrip_cons, ih (isCased c) hfix, hcseq, titleAux_cons]

theorem lstrip_titleAux (b : Bool) (u : List Nat) (h : lstrip u = u) :
    lstrip (titleAux b u) = titleAux b u := by
  cases u with
  | nil => rfl
  | cons c cs =>
    have hc := head_not_space_of_lstrip h
    rw [titleAux_cons]
    simp [lstrip, List.dropWhile_cons, isPySpace_titleHead, hc]

theorem pyTitle_pyTitle (s : List Nat) : pyTitle (pyTitle s) = pyTitle s :=
  titleAux_titleAux false s

theorem pyStrip_pyStrip (s : List Nat) : pyStrip (pyStrip s) = pyStrip s := by
  unfold pyStrip
  rw [lstrip_rstrip_of_lstrip _ (lstrip_idem s), rstrip_rstrip]

theorem pyStrip_pyTitle_pyStrip (s : List Nat) :
    pyStrip (pyTitle (pyStrip s)) = pyTitle (pyStrip s) := by
  unfold pyStrip pyTitle
  have h1 : lstrip (rstrip (lstrip s)) = rstrip (lstrip s) :=
    lstrip_rstrip_of_lstrip _ (lstrip_idem s)
  rw [lstrip_titleAux _ _ h1, rstrip_titleAux _ _ (rstrip_rstrip _)]

theorem mem_of_lookup {l : List (List Nat × List Nat)} {a b : List Nat}
    (h : l.lookup a = some b) : (a, b) ∈ l := by
  induction l with
  | nil => cases h
  | cons p ps ih =>
    obtain ⟨k, v⟩ := p
    simp only [List.lookup] at h
    by_cases hk : a == k
    · simp only [hk] at h
      cases h
      have hak : a = k := by
        simpa only [beq_iff_eq] using hk
      subst hak
      exact List.mem_cons_self _ _
    · have hk2 : (a == k) = false := by
        cases hb : a == k
        · rfl
        · exact absurd hb hk
      simp only [hk2] at h
      exact List.mem_cons_of_mem _ (ih h)

theorem alias_values_fixed : ∀ p ∈ replacements, cleanName p.2 = p.2 := by decide

theorem cleanName_idem (s : List Nat) : cleanName (cleanName s) = cleanName s := by
  cases h : replacements.lookup (pyTitle (pyStrip s)) with
  | some v =>
    have h1 : cleanName s = v := by
      unfold cleanName aliasGet
      rw [h]
    rw [h1]
    exact alias_values_fixed _ (mem_of_lookup h)
  | none =>
    have h1 : cleanName s = pyTitle (pyStrip s) := by
      unfold cleanName aliasGet
      rw [h]
    rw [h1]
    unfold cleanName
    rw [pyStrip_pyTitle_pyStrip, pyTitle_pyTitle]
    unfold aliasGet
    rw [h]

/-! ### Claims about the two cell-cleaning helpers -/

/-- C5: the name normalizer `clean_state_name` is idempotent on every
string input: normalising once yields a string that normalises to itself
(`clean_state_name(clean_state_name(s)) == clean_state_name(s)`). -/
theorem c5_clean_state_name_idempotent (s : List Nat) :
    clean_state_name (.vstr s) = .ok (.vstr (cleanName s)) ∧
    clean_state_name (.vstr (cleanName s)) = .ok (.vstr (cleanName s)) := by
  constructor
  · rfl
  · have h2 : clean_state_name (.vstr (cleanName s))
        = .ok (.vstr (cleanName (cleanName s))) := rfl
    rw [h2, cleanName_idem]

/-- C6: `clean_numeric` returns every non-string input unchanged (including
negative and zero numbers); on a string it removes the comma
thousands-separators and runs a full `float` parse, returning the parsed
value on success and exactly `0.0` on any parse failure (residual
non-numeric characters, empty string). -/
theorem c6_clean_numeric_spec (v : PyVal) (s : List Nat) :
    ((∀ t, v ≠ .vstr t) → clean_numeric v = v) ∧
    (∀ f, pyFloatParse (removeCommas s) = some f → clean_numeric (.vstr s) = .vfloat f) ∧
    (pyFloatParse (removeCommas s) = none → clean_numeric (.vstr s) = .vfloat .zero) := by
  refine ⟨?_, ?_, ?_⟩
  · intro hns
    cases v with
    | vstr t => exact absurd rfl (hns t)
    | vfloat f => rfl
    | vint n => rfl
    | vnone => rfl
  · intro f hf
    simp only [clean_numeric]
    rw [hf]
  · intro hf
    simp only [clean_numeric]
    rw [hf]

theorem c6_witness :
    clean_numeric (.vint (-3)) = .vint (-3) ∧
    clean_numeric (.vstr (enc "2,75,069")) = .vfloat (.finite 275069 0) ∧
    clean_numeric (.vstr (enc "N/A")) = .vfloat .zero :=
  ⟨(c6_clean_numeric_spec (.vint (-3)) (enc "")).1 (fun t h => by cases h),
   (c6_clean_numeric_spec (.vint (-3)) (enc "2,75,069")).2.1 (.finite 275069 0) (by decide),
   (c6_clean_numeric_spec (.vint (-3)) (enc "N/A")).2.2 (by decide)⟩

/-- C7: `clean_state_name` maps every NA (missing/NULL-ish) input to the
sentinel `"Unknown"` without failing; every string input is trimmed,
title-cased and passed through the fixed alias table, and a string whose
trimmed title-cased form is not an alias-table key comes back exactly
trimmed and title-cased. -/
theorem c7_clean_state_name_spec (v : PyVal) (s : List Nat) :
    (isna v = true → clean_state_name v = .ok (.vstr (enc "Unknown"))) ∧
    clean_state_name (.vstr s) = .ok (.vstr (aliasGet (pyTitle (pyStrip s)))) ∧
    (replacements.lookup (pyTitle (pyStrip s)) = none →
      clean_state_name (.vstr s) = .ok (.vstr (pyTitle (pyStrip s)))) := by
  refine ⟨?_, rfl, ?_⟩
  · intro h
    unfold clean_state_name
    rw [h]
    rfl
  · intro h
    have h2 : clean_state_name (.vstr s) = .ok (.vstr (cleanName s)) := rfl
    rw [h2]
    unfold cleanName aliasGet
    rw [h]

theorem c7_witness :
    clean_state_name .vnone = .ok (.vstr (enc "Unknown")) ∧
    clean_state_name (.vstr (enc " a & n islands ")) =
      .ok (.vstr (aliasGet (pyTitle (pyStrip (enc " a & n islands "))))) ∧
    clean_state_name (.vstr (enc "west bengal")) = .ok (.vstr (pyTitle (pyStrip (enc "west bengal")))) :=
  ⟨(c7_clean_state_name_spec .vnone (enc "")).1 (by decide),
   (c7_clean_state_name_spec .vnone (enc " a & n islands ")).2.1,
   (c7_clean_state_name_spec .vnone (enc "west bengal")).2.2 (by decide)⟩

/-- C10: on every input that is neither NA nor a string — an int, or a
non-NaN float — `clean_state_name` raises `AttributeError` at
`name.strip()` instead of returning a canonical name. -/
theorem c10_clean_state_name_raises (v : PyVal)
    (hna : isna v = false) (hns : ∀ s, v ≠ .vstr s) :
    clean_state_name v = .error .attributeError := by
  unfold clean_state_name
  rw [hna]
  cases v with
  | vstr s => exact absurd rfl (hns s)
  | vfloat f => rfl
  | vint n => rfl
  | vnone => simp [isna] at hna

theorem c10_witness :
    isna (.vint 5) = false ∧ clean_state_name (.vint 5) = .error .attributeError :=
  ⟨by decide, c10_clean_state_name_raises (.vint 5) (by decide) (fun s h => by cases h)⟩

/-- C2 counterexample: the string `"inf"` parses successfully in Python's
`float`, so `clean_numeric` returns positive infinity — a non-finite
float — refuting the claim that every string coerces to a finite value. -/
theorem c2_counterexample :
    clean_numeric (.vstr (enc "inf")) = .vfloat .inf ∧
    PyFloat.isFinite .inf = false := by
  exact ⟨by decide, rfl⟩

/-- C2 amended: `clean_numeric` never raises on a string (it is total) and
always returns a float; the result is finite for every string whose
comma-stripped form does not parse as an infinity or NaN literal. -/
theorem c2_coercion_total_amended (s : List Nat)
    (h : (pyFloatParse (removeCommas s)).all PyFloat.isFinite = true) :
    ∃ n d, clean_numeric (.vstr s) = .vfloat (.finite n d) := by
  simp only [clean_numeric]
  cases hp : pyFloatParse (removeCommas s) with
  | none => exact ⟨0, 0, rfl⟩
  | some f =>
    rw [hp] at h
    cases f with
    | finite n d => exact ⟨n, d, rfl⟩
    | inf => simp [Option.all, PyFloat.isFinite] at h
    | ninf => simp [Option.all, PyFloat.isFinite] at h
    | nan => simp [Option.all, PyFloat.isFinite] at h

theorem c2_witness :
    (pyFloatParse (removeCommas (enc "12.5"))).all PyFloat.isFinite = true ∧
    ∃ n d, clean_numeric (.vstr (enc "12.5")) = .vfloat (.finite n d) :=
  ⟨by decide, c2_coercion_total_amended (enc "12.5") (by decide)⟩

/-! ### Claims about the loader's error handling -/

/-- C3 counterexample: a source that is present but structurally unparsable
is NOT converted into the `(None, message)` return — the pandas parse
exception propagates uncaught out of `load_data`, refuting the claim that
any unreadable source yields the structured no-tables-plus-error result. -/
theorem c3_counterexample :
    load_data (.error .unparsable) (.ok exEmpty) (.ok exEmpty) (.ok exEmpty)
      = .raised .pdParserError := rfl

/-- C3 amended: only a missing file aborts into the structured return: the
first `FileNotFoundError` among the four reads (in source order) makes
`load_data` return no tables together with one error naming that source,
while an unparsable source propagates the parser exception instead. -/
theorem c3_abort_on_missing_file_amended (rT rM rA : Except ReadErr Table)
    (tF tT tM : Table) :
    load_data (.error .fileNotFound) rT rM rA = .errReturn forestPath ∧
    load_data (.ok tF) (.error .fileNotFound) rM rA = .errReturn treePath ∧
    load_data (.ok tF) (.ok tT) (.error .fileNotFound) rA = .errReturn mangrovePath ∧
    load_data (.ok tF) (.ok tT) (.ok tM) (.error .fileNotFound) = .errReturn agroPath ∧
    load_data (.error .unparsable) rT rM rA = .raised .pdParserError :=
  ⟨rfl, rfl, rfl, rfl, rfl⟩

theorem exMapM_clean_ok (vs : List PyVal)
    (h : ∀ v ∈ vs, isna v = true ∨ ∃ s, v = PyVal.vstr s) :
    ∃ ws, exMapM clean_state_name vs = .ok ws := by
  induction vs with
  | nil => exact ⟨[], rfl⟩
  | cons v vt ih =>
    obtain ⟨ws, hws⟩ := ih (fun x hx => h x (List.mem_cons_of_mem _ hx))
    have hv : ∃ w, clean_state_name v = .ok w := by
      rcases h v (List.mem_cons_self _ _) with hna | ⟨s, rfl⟩
      · refine ⟨.vstr (enc "Unknown"), ?_⟩
        unfold clean_state_name
        rw [hna]
        rfl
      · exact ⟨_, rfl⟩
    obtain ⟨w, hw⟩ := hv
    refine ⟨w :: ws, ?_⟩
    simp only [exMapM]
    rw [hw, hws]

theorem normStep_ok_of_cleanable (t : Table) (c : String)
    (h : nameColCleanable t c) : ∃ t', normStep t c = .ok t' := by
  unfold normStep
  by_cases hc : hasCol t c = true
  · rw [if_pos hc]
    obtain ⟨ws, hws⟩ := exMapM_clean_ok (colVals t c) h
    rw [hws]
    exact ⟨_, rfl⟩
  · rw [if_neg hc]
    exact ⟨t, rfl⟩

theorem numStep_cols (t : Table) (c : String) : (numStep t c).cols = t.cols := by
  unfold numStep
  cases colIdx t c
  · rfl
  · rfl

theorem colIdx_none_of_hasCol_false {t : Table} {c : String}
    (h : hasCol t c = false) : colIdx t c = none := by
  unfold hasCol at h
  cases hx : colIdx t c with
  | none => rfl
  | some i => rw [hx] at h; cases h

theorem selectCols_state_err {t : Table} (h : colIdx t "State" = none)
    (cs : List String) :
    selectCols t ("State" :: cs) = .error (.keyError "State") := by
  unfold selectCols
  simp only [exMapM, h]

/-- C9: `load_data` is not total over table shapes even when every file is
readable: if the Forest table has neither the raw `'State/UTs'` column (so
normalisation is skipped and no `'State'` column is created) nor a
pre-existing `'State'` column, the Master selection raises an uncaught
`KeyError` instead of returning the structured `(None, error)` result. -/
theorem c9_missing_name_column_raises (tF tT tM tA : Table)
    (hUTs : hasCol tF "State/UTs" = false)
    (hSt : hasCol tF "State" = false)
    (hT : nameColCleanable tT "State/ Uts")
    (hM : nameColCleanable tM "state")
    (hA : nameColCleanable tA "States") :
    load_data (.ok tF) (.ok tT) (.ok tM) (.ok tA) = .raised (.keyError "State") := by
  have h1 : normStep tF "State/UTs" = .ok tF := by
    unfold normStep
    rw [if_neg (by rw [hUTs]; exact Bool.false_ne_true)]
  obtain ⟨tT', hT'⟩ := normStep_ok_of_cleanable tT "State/ Uts" hT
  obtain ⟨tM', hM'⟩ := normStep_ok_of_cleanable tM "state" hM
  obtain ⟨tA', hA'⟩ := normStep_ok_of_cleanable tA "States" hA
  have hcols : (numStep (numStep tF "Geographical Area")
      "Recorded Forest Area - Total").cols = tF.cols := by
    rw [numStep_cols, numStep_cols]
  have hcnone : colIdx (numStep (numStep tF "Geographical Area")
      "Recorded Forest Area - Total") "State" = none := by
    have := colIdx_none_of_hasCol_false hSt
    unfold colIdx at this ⊢
    rw [hcols]
    exact this
  have hload : load_data (.ok tF) (.ok tT) (.ok tM) (.ok tA)
      = match buildTables tF tT tM tA with
        | .error e => .raised e
        | .ok d => .ok d := rfl
  have hbuild : buildTables tF tT tM tA = .error (.keyError "State") := by
    unfold buildTables
    simp only [h1, hT', hM', hA', selectCols_state_err hcnone]
  rw [hload, hbuild]

theorem cleanable_empty (c : String) : nameColCleanable exEmpty c := by
  intro v hv
  cases hv

/-! ### Lemmas about selection, merging and zero-filling -/

theorem exMapM_ok_forall {f : α → Except PyExc β} {l : List α} {l' : List β}
    (h : exMapM f l = .ok l') : ∀ a ∈ l, ∃ b, f a = .ok b := by
  induction l generalizing l' with
  | nil => intro a ha; cases ha
  | cons x xs ih =>
    intro a ha
    simp only [exMapM] at h
    cases hfx : f x with
    | error e => rw [hfx] at h; cases h
    | ok b =>
      rw [hfx] at h
      cases hrec : exMapM f xs with
      | error e => rw [hrec] at h; cases h
      | ok bs =>
        rcases List.mem_cons.1 ha with rfl | ha2
        · exact ⟨b, hfx⟩
        · exact ih hrec a ha2

theorem colIdx_lt_length {t : Table} {c : String} {i : Nat}
    (h : colIdx t c = some i) : i < t.cols.length := by
  unfold colIdx at h
  exact (List.findIdx?_eq_some_iff_getElem.1 h).1

theorem colVals_of_colIdx {t : Table} {c : String} {i : Nat}
    (h : colIdx t c = some i) :
    colVals t c = t.rows.map (fun r => r.getD i .vnone) := by
  unfold colVals
  rw [h]

theorem selectCols_ok_cols_rows {t m : Table} {cs : List String}
    (h : selectCols t cs = .ok m) :
    m.cols = cs ∧
    m.rows = t.rows.map (fun r => cs.map (fun c => r.getD ((colIdx t c).getD 0) .vnone)) ∧
    ∀ c ∈ cs, ∃ i, colIdx t c = some i := by
  unfold selectCols at h
  cases hx : exMapM (fun c =>
      match colIdx t c with
      | some i => Except.ok i
      | none => Except.error (PyExc.keyError c)) cs with
  | error e => rw [hx] at h; cases h
  | ok idxs =>
    rw [hx] at h
    injection h with hm
    refine ⟨by rw [← hm], by rw [← hm], ?_⟩
    intro c hc
    obtain ⟨b, hb⟩ := exMapM_ok_forall hx c hc
    cases hc2 : colIdx t c with
    | none => rw [hc2] at hb; cases hb
    | some i => exact ⟨i, rfl⟩

/-- In the success case, the values of a selected column are exactly the
values of the same-named column of the source table. -/
theorem selectCols_colVals {t m : Table} {cs : List String} {c : String} {j : Nat}
    (h : selectCols t cs = .ok m) (hj : cs.findIdx? (· = c) = some j) :
    m.cols = cs ∧ colVals m c = colVals t c := by
  obtain ⟨hmc, hmr, hall⟩ := selectCols_ok_cols_rows h
  obtain ⟨hjl, hpj, -⟩ := List.findIdx?_eq_some_iff_getElem.1 hj
  have hcj : cs[j] = c := by simpa using hpj
  have hmem : c ∈ cs := hcj ▸ List.getElem_mem hjl
  obtain ⟨i, hci⟩ := hall c hmem
  have hmj : colIdx m c = some j := by
    unfold colIdx
    rw [hmc]
    exact hj
  refine ⟨hmc, ?_⟩
  rw [colVals_of_colIdx hmj, colVals_of_colIdx hci, hmr, List.map_map]
  apply List.map_congr_left
  intro r hr
  simp only [Function.comp]
  rw [List.getD_eq_getElem?_getD, List.getElem?_map,
    List.getElem?_eq_getElem hjl, hcj]
  simp only [Option.map_some', Option.getD_some]
  rw [hci]
  rfl

/-- Every output row of a left merge is an input left row extended either
with a NaN pad (no match) or with one matching right row minus its key. -/
theorem mergeRows_shape {lrows rrows : List (List PyVal)} {li ri nfill : Nat} :
    ∀ row ∈ mergeRows lrows rrows li ri nfill,
      ∃ lrow ∈ lrows,
        row = lrow ++ List.replicate nfill (PyVal.vfloat .nan) ∨
        ∃ rrow ∈ rrows, row = lrow ++ rrow.eraseIdx ri := by
  intro row hrow
  obtain ⟨lrow, hl, hm⟩ := List.mem_flatMap.1 hrow
  refine ⟨lrow, hl, ?_⟩
  cases hms : rrows.filter (fun rrow => rrow.getD ri .vnone == lrow.getD li .vnone) with
  | nil =>
    rw [hms] at hm
    simp only [List.mem_singleton] at hm
    exact Or.inl hm
  | cons m ms =>
    rw [hms] at hm
    obtain ⟨rrow, hrm, rfl⟩ := List.mem_map.1 hm
    refine Or.inr ⟨rrow, ?_, rfl⟩
    have hmf : rrow ∈ rrows.filter
        (fun rrow => rrow.getD ri .vnone == lrow.getD li .vnone) := by
      rw [hms]; exact hrm
    exact List.mem_of_mem_filter hmf

/-- When every key matches at most one right row, a left merge keeps both
the row count and the key sequence of the left table. -/
theorem mergeRows_keys {lrows rrows : List (List PyVal)} {li ri nfill : Nat}
    (hdup : ∀ lrow ∈ lrows,
      (rrows.filter (fun rrow => rrow.getD ri .vnone == lrow.getD li .vnone)).length ≤ 1)
    (hpos : ∀ lrow ∈ lrows, li < lrow.length) :
    (mergeRows lrows rrows li ri nfill).map (fun r => r.getD li .vnone)
      = lrows.map (fun r => r.getD li .vnone) ∧
    (mergeRows lrows rrows li ri nfill).length = lrows.length := by
  induction lrows with
  | nil => exact ⟨rfl, rfl⟩
  | cons lrow rest ih =>
    obtain ⟨ih1, ih2⟩ := ih (fun r h => hdup r (List.mem_cons_of_mem _ h))
      (fun r h => hpos r (List.mem_cons_of_mem _ h))
    have hkey : ∀ tail, (lrow ++ tail).getD li .vnone = lrow.getD li .vnone := by
      intro tail
      rw [List.getD_eq_getElem?_getD,
        List.getElem?_append_left (hpos lrow (List.mem_cons_self _ _)),
        ← List.getD_eq_getElem?_getD]
    have hexp : mergeRows (lrow :: rest) rrows li ri nfill =
        (match rrows.filter (fun rrow => rrow.getD ri .vnone == lrow.getD li .vnone) with
         | [] => [lrow ++ List.replicate nfill (PyVal.vfloat .nan)]
         | ms => ms.map (fun rrow => lrow ++ rrow.eraseIdx ri))
          ++ mergeRows rest rrows li ri nfill := by
      unfold mergeRows
      rw [List.flatMap_cons]
    cases hms : rrows.filter (fun rrow => rrow.getD ri .vnone == lrow.getD li .vnone) with
    | nil =>
      rw [hexp, hms]
      constructor
      · simp only [List.singleton_append, List.map_cons, hkey, ih1]
      · simp only [List.singleton_append, List.length_cons, ih2]
    | cons m ms =>
      have hle := hdup lrow (List.mem_cons_self _ _)
      rw [hms] at hle
      have hms0 : ms = [] := by
        cases ms with
        | nil => rfl
        | cons a b => simp at hle
      subst hms0
      rw [hexp, hms]
      constructor
      · simp only [List.map_cons, List.map_nil, List.singleton_append, hkey, ih1]
      · simp only [List.map_cons, List.map_nil, List.singleton_append, List.length_cons, ih2]

theorem filter_le_one_of_nodup {rrows : List (List PyVal)} {ri : Nat}
    (h : (rrows.map (fun r => r.getD ri .vnone)).Nodup) (k : PyVal) :
    (rrows.filter (fun rrow => rrow.getD ri .vnone == k)).length ≤ 1 := by
  have h1 : (rrows.filter (fun rrow => rrow.getD ri .vnone == k)).length
      = List.countP (fun rrow => rrow.getD ri .vnone == k) rrows :=
    (List.countP_eq_length_filter _ _).symm
  have h2 : List.countP (fun rrow => rrow.getD ri .vnone == k) rrows
      = List.count k (rrows.map (fun r => r.getD ri .vnone)) := by
    rw [List.count, List.countP_map]
    rfl
  rw [h1, h2]
  exact List.nodup_iff_count_le_one.1 h k

/-- Inversion of a successful `buildTables` run into its pipeline stages. -/
theorem buildTables_ok_inv {tF tT tM tA : Table} {d : Loaded}
    (h : buildTables tF tT tM tA = .ok d) :
    ∃ dfF dfT dfM dfA m0 tSel,
      normStep tF "State/UTs" = .ok dfF ∧
      normStep tT "State/ Uts" = .ok dfT ∧
      normStep tM "state" = .ok dfM ∧
      normStep tA "States" = .ok dfA ∧
      d.forest = numStep (numStep dfF "Geographical Area") "Recorded Forest Area - Total" ∧
      d.tree = numStep dfT "Tree Cover - Area" ∧
      d.mangrove = numStep dfM "value" ∧
      d.agro = dfA ∧
      selectCols d.forest ["State", "Recorded Forest Area - Total", "Geographical Area"]
        = .ok m0 ∧
      selectCols d.tree ["State", "Tree Cover - Area"] = .ok tSel ∧
      ((hasCol dfA "Precipitation_mm" = false ∧
          d.master = fillna0 (mergeLeft m0 tSel "State")) ∨
        (∃ aSel, hasCol dfA "Precipitation_mm" = true ∧
          selectCols dfA ["State", "Precipitation_mm"] = .ok aSel ∧
          d.master = fillna0 (mergeLeft (mergeLeft m0 tSel "State") aSel "State"))) := by
  unfold buildTables at h
  cases h1 : normStep tF "State/UTs" with
  | error e => rw [h1] at h; cases h
  | ok dfF =>
  rw [h1] at h
  cases h2 : normStep tT "State/ Uts" with
  | error e => rw [h2] at h; cases h
  | ok dfT =>
  rw [h2] at h
  cases h3 : normStep tM "state" with
  | error e => rw [h3] at h; cases h
  | ok dfM =>
  rw [h3] at h
  cases h4 : normStep tA "States" with
  | error e => rw [h4] at h; cases h
  | ok dfA =>
  rw [h4] at h
  simp only at h
  cases h5 : selectCols (numStep (numStep dfF "Geographical Area")
      "Recorded Forest Area - Total")
      ["State", "Recorded Forest Area - Total", "Geographical Area"] with
  | error e => rw [h5] at h; cases h
  | ok m0 =>
  rw [h5] at h
  cases h6 : selectCols (numStep dfT "Tree Cover - Area") ["State", "Tree Cover - Area"] with
  | error e => rw [h6] at h; cases h
  | ok tSel =>
  rw [h6] at h
  cases hP : hasCol dfA "Precipitation_mm" with
  | false =>
    simp only [hP, Bool.false_eq_true, if_false] at h
    cases h
    exact ⟨dfF, dfT, dfM, dfA, m0, tSel, rfl, rfl, rfl, rfl, rfl, rfl, rfl, rfl,
      h5, h6, Or.inl ⟨hP, rfl⟩⟩
  | true =>
    simp only [hP, if_true] at h
    cases h7 : selectCols dfA ["State", "Precipitation_mm"] with
    | error e =>
      rw [h7] at h
      simp only [Except.map] at h
      cases h
    | ok aSel =>
      rw [h7] at h
      simp only [Except.map] at h
      cases h
      exact ⟨dfF, dfT, dfM, dfA, m0, tSel, rfl, rfl, rfl, rfl, rfl, rfl, rfl, rfl,
        h5, h6, Or.inr ⟨aSel, hP, h7, rfl⟩⟩

theorem load_data_ok_inv {tF tT tM tA : Table} {d : Loaded}
    (h : load_data (.ok tF) (.ok tT) (.ok tM) (.ok tA) = .ok d) :
    buildTables tF tT tM tA = .ok d := by
  have hred : load_data (.ok tF) (.ok tT) (.ok tM) (.ok tA)
      = match buildTables tF tT tM tA with
        | .error e => .raised e
        | .ok d => .ok d := rfl
  rw [hred] at h
  cases hb : buildTables tF tT tM tA with
  | error e => rw [hb] at h; cases h
  | ok d2 => rw [hb] at h; cases h; rfl

theorem isOk_ok_inv {r : LoadResult} (h : isOk r = true) : ∃ d, r = .ok d := by
  cases r with
  | ok d => exact ⟨d, rfl⟩
  | errReturn p => cases h
  | raised e => cases h

/-- Zero-filling acts cell-wise on every (existing) column. -/
theorem fillna0_colVals (t : Table) (c : String) :
    colVals (fillna0 t) c
      = (colVals t c).map (fun v => if isna v = true then PyVal.vfloat .zero else v) := by
  unfold colVals
  have hcols : colIdx (fillna0 t) c = colIdx t c := rfl
  rw [hcols]
  cases hci : colIdx t c with
  | none => rfl
  | some i =>
    have hi : i < t.cols.length := colIdx_lt_length (t := t) hci
    show (fillna0 t).rows.map _ = _
    unfold fillna0
    simp only [List.map_map]
    apply List.map_congr_left
    intro r hr
    have hlen := t.wf r hr
    simp only [Function.comp]
    rw [List.getD_eq_getElem?_getD, List.getElem?_map, List.getD_eq_getElem?_getD]
    have hir : i < r.length := by omega
    rw [List.getElem?_eq_getElem hir]
    rfl

theorem mergeLeft_key {l r : Table} {csl csr : List String}
    (hlc : l.cols = "State" :: csl) (hrc : r.cols = "State" :: csr)
    (hnd : (colVals r "State").Nodup) :
    (mergeLeft l r "State").cols = "State" :: (csl ++ csr) ∧
    colVals (mergeLeft l r "State") "State" = colVals l "State" ∧
    (mergeLeft l r "State").rows.length = l.rows.length := by
  have hli : colIdx l "State" = some 0 := by
    unfold colIdx
    rw [hlc]
    rfl
  have hri : colIdx r "State" = some 0 := by
    unfold colIdx
    rw [hrc]
    rfl
  have hcols : (mergeLeft l r "State").cols = "State" :: (csl ++ csr) := by
    show l.cols ++ r.cols.eraseIdx ((colIdx r "State").getD 0) = _
    rw [hri, hlc, hrc]
    rfl
  have hrows : (mergeLeft l r "State").rows
      = mergeRows l.rows r.rows 0 0
          (r.cols.eraseIdx ((colIdx r "State").getD 0)).length := by
    show mergeRows l.rows r.rows ((colIdx l "State").getD 0) ((colIdx r "State").getD 0)
        (r.cols.eraseIdx ((colIdx r "State").getD 0)).length = _
    rw [hli, hri]
    rfl
  have hknd : ∀ lrow ∈ l.rows,
      (r.rows.filter (fun rrow => rrow.getD 0 .vnone == lrow.getD 0 .vnone)).length ≤ 1 := by
    intro lrow _
    apply filter_le_one_of_nodup
    rw [colVals_of_colIdx hri] at hnd
    exact hnd
  have hpos : ∀ lrow ∈ l.rows, 0 < lrow.length := by
    intro lrow hl
    rw [l.wf lrow hl, hlc]
    simp
  obtain ⟨hmap, hlen⟩ := mergeRows_keys hknd hpos
  have hmi : colIdx (mergeLeft l r "State") "State" = some 0 := by
    unfold colIdx
    rw [hcols]
    rfl
  refine ⟨hcols, ?_, ?_⟩
  · rw [colVals_of_colIdx hmi, colVals_of_colIdx hli, hrows, hmap]
  · rw [hrows, hlen]

theorem fillna0_colVals_id {t : Table} {c : String}
    (h : ∀ v ∈ colVals t c, isna v = false) :
    colVals (fillna0 t) c = colVals t c := by
  rw [fillna0_colVals]
  have h2 : (colVals t c).map (fun v => if isna v = true then PyVal.vfloat .zero else v)
      = (colVals t c).map id :=
    List.map_congr_left (fun v hv => by rw [h v hv]; rfl)
  rw [h2, List.map_id]

theorem fillna0_length (t : Table) : (fillna0 t).rows.length = t.rows.length := by
  show (t.rows.map _).length = _
  rw [List.length_map]

theorem mergeLeft_cols {l r : Table} {csl csr : List String}
    (hlc : l.cols = "State" :: csl) (hrc : r.cols = "State" :: csr) :
    (mergeLeft l r "State").cols = "State" :: (csl ++ csr) := by
  have hri : colIdx r "State" = some 0 := by
    unfold colIdx
    rw [hrc]
    rfl
  show l.cols ++ r.cols.eraseIdx ((colIdx r "State").getD 0) = _
  rw [hri, hlc, hrc]
  rfl

/-- Cells of a left-table column survive a left merge unchanged: every
value of that column in the merged table is a value of it in the left
table. -/
theorem mergeLeft_colVals_left {l r : Table} {c : String} {j : Nat}
    (hlj : colIdx l c = some j) :
    ∀ v ∈ colVals (mergeLeft l r "State") c, v ∈ colVals l c := by
  intro v hv
  have hmj : colIdx (mergeLeft l r "State") c = some j := by
    unfold colIdx at hlj ⊢
    show (l.cols ++ _).findIdx? _ = some j
    rw [List.findIdx?_append, hlj]
    rfl
  rw [colVals_of_colIdx hmj] at hv
  obtain ⟨row, hrow, rfl⟩ := List.mem_map.1 hv
  obtain ⟨lrow, hl, hshape⟩ := mergeRows_shape row hrow
  have hjl : j < lrow.length := by
    rw [l.wf lrow hl]
    exact colIdx_lt_length hlj
  have hget : row.getD j .vnone = lrow.getD j .vnone := by
    rcases hshape with rfl | ⟨rrow, -, rfl⟩ <;>
      rw [List.getD_eq_getElem?_getD, List.getElem?_append_left hjl,
        ← List.getD_eq_getElem?_getD]
  rw [hget, colVals_of_colIdx hlj]
  exact List.mem_map.2 ⟨lrow, hl, rfl⟩

/-- Cells of the non-key column of a two-column right table after a left
merge: each is either a value of that column in the right table, or the
NaN fill of an unmatched row. -/
theorem mergeLeft_colVals_right {l r : Table} {c : String}
    (hln : colIdx l c = none) (hrc : r.cols = ["State", c])
    (hne : "State" ≠ c) :
    ∀ v ∈ colVals (mergeLeft l r "State") c,
      v ∈ colVals r c ∨ v = .vfloat .nan := by
  intro v hv
  have hri : colIdx r "State" = some 0 := by
    unfold colIdx
    rw [hrc]
    rfl
  have hrcc : colIdx r c = some 1 := by
    unfold colIdx
    rw [hrc]
    simp [List.findIdx?_cons, hne]
  have hmj : colIdx (mergeLeft l r "State") c = some l.cols.length := by
    unfold colIdx at hln ⊢
    show (l.cols ++ r.cols.eraseIdx ((colIdx r "State").getD 0)).findIdx? _ = _
    rw [List.findIdx?_append, hln, hri, hrc]
    simp [List.eraseIdx, List.findIdx?_cons]
  rw [colVals_of_colIdx hmj] at hv
  obtain ⟨row, hrow, rfl⟩ := List.mem_map.1 hv
  obtain ⟨lrow, hl, hshape⟩ := mergeRows_shape row hrow
  have hllen : lrow.length = l.cols.length := l.wf lrow hl
  have hnfill : (r.cols.eraseIdx ((colIdx r "State").getD 0)).length = 1 := by
    rw [hri, hrc]
    rfl
  rcases hshape with rfl | ⟨rrow, hrr, rfl⟩
  · right
    rw [hnfill, List.getD_eq_getElem?_getD,
      List.getElem?_append_right (by omega), hllen]
    simp
  · left
    have hrlen : rrow.length = 2 := by rw [r.wf rrow hrr, hrc]; rfl
    cases rrow with
    | nil => simp at hrlen
    | cons a tl =>
      rw [colVals_of_colIdx hrcc]
      refine List.mem_map.2 ⟨a :: tl, hrr, ?_⟩
      have hr2 : (lrow ++ (a :: tl).eraseIdx ((colIdx r "State").getD 0)).getD
          l.cols.length .vnone = tl.getD 0 .vnone := by
        rw [hri]
        show (lrow ++ tl).getD l.cols.length .vnone = tl.getD 0 .vnone
        rw [List.getD_eq_getElem?_getD, List.getElem?_append_right (by omega), hllen,
          Nat.sub_self, ← List.getD_eq_getElem?_getD]
      rw [hr2]
      rfl

theorem fillna0_no_na (t : Table) (c : String) :
    ∀ v ∈ colVals (fillna0 t) c, isna v = false := by
  rw [fillna0_colVals]
  intro v hv
  obtain ⟨w, hw, rfl⟩ := List.mem_map.1 hv
  by_cases h : isna w = true
  · rw [if_pos h]
    rfl
  · rw [if_neg h]
    cases hw2 : isna w with
    | false => rfl
    | true => exact absurd hw2 h

theorem fillna0_finite {t : Table} {c : String}
    (h : ∀ v ∈ colVals t c, finOrNA v = true) :
    ∀ v ∈ colVals (fillna0 t) c, isFiniteFloat v = true := by
  rw [fillna0_colVals]
  intro v hv
  obtain ⟨w, hw, rfl⟩ := List.mem_map.1 hv
  have hfw := h w hw
  by_cases hna : isna w = true
  · rw [if_pos hna]
    rfl
  · rw [if_neg hna]
    cases w with
    | vstr s => simp [finOrNA, isna] at hfw
    | vint n => simp [finOrNA, isna] at hfw
    | vnone => exact absurd rfl hna
    | vfloat f =>
      cases f with
      | finite n d => rfl
      | inf => simp [finOrNA, isna] at hfw
      | ninf => simp [finOrNA, isna] at hfw
      | nan => exact absurd rfl hna

/-- The master key column of a successful build: with non-missing anchor
keys and duplicate-free non-anchor key columns, the Master table repeats
the anchor's Region sequence and row count exactly. -/
theorem master_key_spec {tF tT tM tA : Table} {d : Loaded}
    (hb : buildTables tF tT tM tA = .ok d)
    (hkeys : ∀ v ∈ colVals d.forest "State", isna v = false)
    (hTnd : (colVals d.tree "State").Nodup)
    (hAnd : (colVals d.agro "State").Nodup) :
    colVals d.master "State" = colVals d.forest "State" ∧
    d.master.rows.length = d.forest.rows.length := by
  obtain ⟨dfF, dfT, dfM, dfA, m0, tSel, -, -, -, -, -, -, -, hdA, h5, h6, hcase⟩ :=
    buildTables_ok_inv hb
  obtain ⟨hm0c, hm0v⟩ := selectCols_colVals h5
    (show (["State", "Recorded Forest Area - Total",
      "Geographical Area"].findIdx? (· = "State")) = some 0 from rfl)
  obtain ⟨htc, htv⟩ := selectCols_colVals h6
    (show (["State", "Tree Cover - Area"].findIdx? (· = "State")) = some 0 from rfl)
  have hm0rows := (selectCols_ok_cols_rows h5).2.1
  have hTnd2 : (colVals tSel "State").Nodup := by rw [htv]; exact hTnd
  obtain ⟨hm1c, hm1v, hm1l⟩ := mergeLeft_key hm0c htc hTnd2
  have hm0len : m0.rows.length = d.forest.rows.length := by
    rw [hm0rows, List.length_map]
  rcases hcase with ⟨-, hmaster⟩ | ⟨aSel, -, h7, hmaster⟩
  · have hnokeep : ∀ v ∈ colVals (mergeLeft m0 tSel "State") "State", isna v = false := by
      rw [hm1v, hm0v]
      exact hkeys
    constructor
    · rw [hmaster, fillna0_colVals_id hnokeep, hm1v, hm0v]
    · rw [hmaster, fillna0_length, hm1l, hm0len]
  · rw [← hdA] at h7
    obtain ⟨hac, hav⟩ := selectCols_colVals h7
      (show (["State", "Precipitation_mm"].findIdx? (· = "State")) = some 0 from rfl)
    have hAnd2 : (colVals aSel "State").Nodup := by rw [hav]; exact hAnd
    obtain ⟨hm2c, hm2v, hm2l⟩ := mergeLeft_key hm1c hac hAnd2
    have hnokeep : ∀ v ∈ colVals (mergeLeft (mergeLeft m0 tSel "State") aSel "State") "State",
        isna v = false := by
      rw [hm2v, hm1v, hm0v]
      exact hkeys
    constructor
    · rw [hmaster, fillna0_colVals_id hnokeep, hm2v, hm1v, hm0v]
    · rw [hmaster, fillna0_length, hm2l, hm1l, hm0len]

/-! ### Claims about the Master join -/

/-- C1 counterexample: a Tree table with two rows for the single anchor
Region makes the left merge emit two Master rows for one anchor row, so
`len(Master) = 2 ≠ 1 = len(AnchorTable)` and the anchor Region appears
twice, refuting the claim for non-anchor tables with multiple matches. -/
theorem c1_counterexample :
    (masterOf (load_data (.ok exForest) (.ok exTreeDup) (.ok exEmpty) (.ok exEmpty))).rows.length
        = 2 ∧
    (forestOf (load_data (.ok exForest) (.ok exTreeDup) (.ok exEmpty) (.ok exEmpty))).rows.length
        = 1 :=
  ⟨by decide, by decide⟩

/-- C1 amended: for loads that succeed, whose anchor (Forest) Region cells
are non-missing, and whose non-anchor tables have at most one row per
Region (duplicate-free key columns), the Master table has exactly as many
rows as the anchor table and its set of Region values equals the anchor's
set. -/
theorem c1_join_count_amended (tF tT tM tA : Table)
    (hok : isOk (load_data (.ok tF) (.ok tT) (.ok tM) (.ok tA)) = true)
    (hkeys : ∀ v ∈ colVals (forestOf (load_data (.ok tF) (.ok tT) (.ok tM) (.ok tA))) "State",
      isna v = false)
    (hTnd : (colVals (treeOf (load_data (.ok tF) (.ok tT) (.ok tM) (.ok tA))) "State").Nodup)
    (hAnd : (colVals (agroOf (load_data (.ok tF) (.ok tT) (.ok tM) (.ok tA))) "State").Nodup) :
    (masterOf (load_data (.ok tF) (.ok tT) (.ok tM) (.ok tA))).rows.length
      = (forestOf (load_data (.ok tF) (.ok tT) (.ok tM) (.ok tA))).rows.length ∧
    (colVals (masterOf (load_data (.ok tF) (.ok tT) (.ok tM) (.ok tA))) "State").toFinset
      = (colVals (forestOf (load_data (.ok tF) (.ok tT) (.ok tM) (.ok tA))) "State").toFinset := by
  obtain ⟨d, hd⟩ := isOk_ok_inv hok
  rw [hd] at hkeys hTnd hAnd ⊢
  simp only [masterOf, forestOf, treeOf, agroOf] at hkeys hTnd hAnd ⊢
  obtain ⟨hkey, hlen⟩ := master_key_spec (load_data_ok_inv hd) hkeys hTnd hAnd
  exact ⟨hlen, by rw [hkey]⟩

theorem c1_witness :
    isOk (load_data (.ok exForest) (.ok exTreeOne) (.ok exEmpty) (.ok exEmpty)) = true ∧
    (masterOf (load_data (.ok exForest) (.ok exTreeOne) (.ok exEmpty) (.ok exEmpty))).rows.length
      = (forestOf (load_data (.ok exForest) (.ok exTreeOne) (.ok exEmpty) (.ok exEmpty))).rows.length ∧
    (colVals (masterOf (load_data (.ok exForest) (.ok exTreeOne) (.ok exEmpty) (.ok exEmpty)))
        "State").toFinset
      = (colVals (forestOf (load_data (.ok exForest) (.ok exTreeOne) (.ok exEmpty) (.ok exEmpty)))
        "State").toFinset :=
  ⟨by decide,
   (c1_join_count_amended exForest exTreeOne exEmpty exEmpty
     (by decide) (by decide) (by decide) (by decide)).1,
   (c1_join_count_amended exForest exTreeOne exEmpty exEmpty
     (by decide) (by decide) (by decide) (by decide)).2⟩

/-- C8 counterexample: with two Tree rows for the one anchor Region, the
Master Region sequence is `[X, X]` while the anchor's sequence is `[X]`,
so the Master does not carry the anchor's row sequence for all inputs. -/
theorem c8_counterexample :
    colVals (masterOf (load_data (.ok exForest) (.ok exTreeDup) (.ok exEmpty) (.ok exEmpty)))
        "State" = [.vstr (enc "X"), .vstr (enc "X")] ∧
    colVals (forestOf (load_data (.ok exForest) (.ok exTreeDup) (.ok exEmpty) (.ok exEmpty)))
        "State" = [.vstr (enc "X")] :=
  ⟨by decide, by decide⟩

/-- C8 amended: for loads that succeed, whose anchor Region cells are
non-missing, and whose non-anchor tables have at most one row per Region
(duplicate-free key columns), the Master table preserves the anchor
(Forest) table's row order exactly: its Region sequence equals the
anchor's Region sequence, with no resort from the joins or the zero
fill. -/
theorem c8_order_preserved_amended (tF tT tM tA : Table)
    (hok : isOk (load_data (.ok tF) (.ok tT) (.ok tM) (.ok tA)) = true)
    (hkeys : ∀ v ∈ colVals (forestOf (load_data (.ok tF) (.ok tT) (.ok tM) (.ok tA))) "State",
      isna v = false)
    (hTnd : (colVals (treeOf (load_data (.ok tF) (.ok tT) (.ok tM) (.ok tA))) "State").Nodup)
    (hAnd : (colVals (agroOf (load_data (.ok tF) (.ok tT) (.ok tM) (.ok tA))) "State").Nodup) :
    colVals (masterOf (load_data (.ok tF) (.ok tT) (.ok tM) (.ok tA))) "State"
      = colVals (forestOf (load_data (.ok tF) (.ok tT) (.ok tM) (.ok tA))) "State" := by
  obtain ⟨d, hd⟩ := isOk_ok_inv hok
  rw [hd] at hkeys hTnd hAnd ⊢
  simp only [masterOf, forestOf, treeOf, agroOf] at hkeys hTnd hAnd ⊢
  exact (master_key_spec (load_data_ok_inv hd) hkeys hTnd hAnd).1

theorem c8_witness :
    isOk (load_data (.ok exForest) (.ok exTreeOne) (.ok exEmpty) (.ok exEmpty)) = true ∧
    colVals (masterOf (load_data (.ok exForest) (.ok exTreeOne) (.ok exEmpty) (.ok exEmpty)))
        "State"
      = colVals (forestOf (load_data (.ok exForest) (.ok exTreeOne) (.ok exEmpty) (.ok exEmpty)))
        "State" :=
  ⟨by decide,
   c8_order_preserved_amended exForest exTreeOne exEmpty exEmpty
     (by decide) (by decide) (by decide) (by decide)⟩

/-- C4 counterexample: a Forest cell holding the string `"inf"` coerces to
positive infinity and survives the merge and the zero fill, so the Master
table contains a non-finite numeric cell. -/
theorem c4_counterexample :
    colVals (masterOf (load_data (.ok exForestInf) (.ok exTreeOne) (.ok exEmpty) (.ok exEmpty)))
      "Recorded Forest Area - Total" = [.vfloat .inf] ∧
    PyFloat.isFinite .inf = false :=
  ⟨by decide, rfl⟩

/-- C4 amended: after the merge in `load_data` no cell of the Master table
is null/NA — every cell left unmatched by a left join is filled with
`0.0`, so a Region missing from the Tree table still has a present,
zero-valued tree-cover cell — and every cell of the numeric columns is a
finite float provided the cleaned tables' numeric cells are each finite or
missing (which coercion guarantees for every cell that does not spell an
infinity or NaN). -/
theorem c4_zero_fill_amended (tF tT tM tA : Table)
    (hok : isOk (load_data (.ok tF) (.ok tT) (.ok tM) (.ok tA)) = true)
    (hF1 : ∀ v ∈ colVals (forestOf (load_data (.ok tF) (.ok tT) (.ok tM) (.ok tA)))
      "Recorded Forest Area - Total", finOrNA v = true)
    (hF2 : ∀ v ∈ colVals (forestOf (load_data (.ok tF) (.ok tT) (.ok tM) (.ok tA)))
      "Geographical Area", finOrNA v = true)
    (hT1 : ∀ v ∈ colVals (treeOf (load_data (.ok tF) (.ok tT) (.ok tM) (.ok tA)))
      "Tree Cover - Area", finOrNA v = true)
    (hA1 : ∀ v ∈ colVals (agroOf (load_data (.ok tF) (.ok tT) (.ok tM) (.ok tA)))
      "Precipitation_mm", finOrNA v = true) :
    (∀ c, ∀ v ∈ colVals (masterOf (load_data (.ok tF) (.ok tT) (.ok tM) (.ok tA))) c,
      isna v = false) ∧
    (∀ c ∈ (["Recorded Forest Area - Total", "Geographical Area", "Tree Cover - Area",
        "Precipitation_mm"] : List String),
      ∀ v ∈ colVals (masterOf (load_data (.ok tF) (.ok tT) (.ok tM) (.ok tA))) c,
        isFiniteFloat v = true) := by
  obtain ⟨d, hd⟩ := isOk_ok_inv hok
  rw [hd] at hF1 hF2 hT1 hA1 ⊢
  simp only [masterOf, forestOf, treeOf, agroOf] at hF1 hF2 hT1 hA1 ⊢
  obtain ⟨dfF, dfT, dfM, dfA, m0, tSel, -, -, -, -, -, -, -, hdA, h5, h6, hcase⟩ :=
    buildTables_ok_inv (load_data_ok_inv hd)
  have hm0c := (selectCols_ok_cols_rows h5).1
  have htc := (selectCols_ok_cols_rows h6).1
  have hRFA := (selectCols_colVals h5
    (show (["State", "Recorded Forest Area - Total",
      "Geographical Area"].findIdx? (· = "Recorded Forest Area - Total")) = some 1 by decide)).2
  have hGA := (selectCols_colVals h5
    (show (["State", "Recorded Forest Area - Total",
      "Geographical Area"].findIdx? (· = "Geographical Area")) = some 2 by decide)).2
  have hTCA := (selectCols_colVals h6
    (show (["State", "Tree Cover - Area"].findIdx? (· = "Tree Cover - Area")) = some 1
      by decide)).2
  have hIdxRFA : colIdx m0 "Recorded Forest Area - Total" = some 1 := by
    unfold colIdx
    rw [hm0c]
    decide
  have hIdxGA : colIdx m0 "Geographical Area" = some 2 := by
    unfold colIdx
    rw [hm0c]
    decide
  have hIdxTCAn : colIdx m0 "Tree Cover - Area" = none := by
    unfold colIdx
    rw [hm0c]
    decide
  have hm1c : (mergeLeft m0 tSel "State").cols
      = "State" :: (["Recorded Forest Area - Total", "Geographical Area"]
        ++ ["Tree Cover - Area"]) := mergeLeft_cols hm0c htc
  have hIdxRFA1 : colIdx (mergeLeft m0 tSel "State") "Recorded Forest Area - Total"
      = some 1 := by
    unfold colIdx
    rw [hm1c]
    decide
  have hIdxGA1 : colIdx (mergeLeft m0 tSel "State") "Geographical Area" = some 2 := by
    unfold colIdx
    rw [hm1c]
    decide
  have hIdxTCA1 : colIdx (mergeLeft m0 tSel "State") "Tree Cover - Area" = some 3 := by
    unfold colIdx
    rw [hm1c]
    decide
  have hIdxPrecn : colIdx (mergeLeft m0 tSel "State") "Precipitation_mm" = none := by
    unfold colIdx
    rw [hm1c]
    decide
  have hfRFA1 : ∀ v ∈ colVals (mergeLeft m0 tSel "State") "Recorded Forest Area - Total",
      finOrNA v = true := by
    intro v hv
    have hm := mergeLeft_colVals_left hIdxRFA v hv
    rw [hRFA] at hm
    exact hF1 v hm
  have hfGA1 : ∀ v ∈ colVals (mergeLeft m0 tSel "State") "Geographical Area",
      finOrNA v = true := by
    intro v hv
    have hm := mergeLeft_colVals_left hIdxGA v hv
    rw [hGA] at hm
    exact hF2 v hm
  have hfTCA1 : ∀ v ∈ colVals (mergeLeft m0 tSel "State") "Tree Cover - Area",
      finOrNA v = true := by
    intro v hv
    rcases mergeLeft_colVals_right hIdxTCAn htc (by decide) v hv with hmem | rfl
    · rw [hTCA] at hmem
      exact hT1 v hmem
    · rfl
  rcases hcase with ⟨-, hmaster⟩ | ⟨aSel, -, h7, hmaster⟩
  · rw [hmaster]
    refine ⟨fun c => fillna0_no_na _ c, ?_⟩
    intro c hc
    simp only [List.mem_cons, List.not_mem_nil, or_false] at hc
    rcases hc with rfl | rfl | rfl | rfl
    · exact fillna0_finite hfRFA1
    · exact fillna0_finite hfGA1
    · exact fillna0_finite hfTCA1
    · intro v hv
      have hnone : colIdx (fillna0 (mergeLeft m0 tSel "State")) "Precipitation_mm"
          = none := hIdxPrecn
      unfold colVals at hv
      rw [hnone] at hv
      cases hv
  · rw [← hdA] at h7
    have hac := (selectCols_ok_cols_rows h7).1
    have hPrec := (selectCols_colVals h7
      (show (["State", "Precipitation_mm"].findIdx? (· = "Precipitation_mm")) = some 1
        by decide)).2
    have hfRFA2 : ∀ v ∈ colVals (mergeLeft (mergeLeft m0 tSel "State") aSel "State")
        "Recorded Forest Area - Total", finOrNA v = true :=
      fun v hv => hfRFA1 v (mergeLeft_colVals_left hIdxRFA1 v hv)
    have hfGA2 : ∀ v ∈ colVals (mergeLeft (mergeLeft m0 tSel "State") aSel "State")
        "Geographical Area", finOrNA v = true :=
      fun v hv => hfGA1 v (mergeLeft_colVals_left hIdxGA1 v hv)
    have hfTCA2 : ∀ v ∈ colVals (mergeLeft (mergeLeft m0 tSel "State") aSel "State")
        "Tree Cover - Area", finOrNA v = true :=
      fun v hv => hfTCA1 v (mergeLeft_colVals_left hIdxTCA1 v hv)
    have hfPrec2 : ∀ v ∈ colVals (mergeLeft (mergeLeft m0 tSel "State") aSel "State")
        "Precipitation_mm", finOrNA v = true := by
      intro v hv
      rcases mergeLeft_colVals_right hIdxPrecn hac (by decide) v hv with hmem | rfl
      · rw [hPrec] at hmem
        exact hA1 v hmem
      · rfl
    rw [hmaster]
    refine ⟨fun c => fillna0_no_na _ c, ?_⟩
    intro c hc
    simp only [List.mem_cons, List.not_mem_nil, or_false] at hc
    rcases hc with rfl | rfl | rfl | rfl
    · exact fillna0_finite hfRFA2
    · exact fillna0_finite hfGA2
    · exact fillna0_finite hfTCA2
    · exact fillna0_finite hfPrec2

theorem c4_witness :
    isOk (load_data (.ok exForest) (.ok exTreeNone) (.ok exEmpty) (.ok exEmpty)) = true ∧
    (∀ c, ∀ v ∈ colVals (masterOf (load_data (.ok exForest) (.ok exTreeNone) (.ok exEmpty)
      (.ok exEmpty))) c, isna v = false) ∧
    (∀ c ∈ (["Recorded Forest Area - Total", "Geographical Area", "Tree Cover - Area",
        "Precipitation_mm"] : List String),
      ∀ v ∈ colVals (masterOf (load_data (.ok exForest) (.ok exTreeNone) (.ok exEmpty)
        (.ok exEmpty))) c, isFiniteFloat v = true) :=
  ⟨by decide,
   (c4_zero_fill_amended exForest exTreeNone exEmpty exEmpty
     (by decide) (by decide) (by decide) (by decide) (by decide)).1,
   (c4_zero_fill_amended exForest exTreeNone exEmpty exEmpty
     (by decide) (by decide) (by decide) (by decide) (by decide)).2⟩

theorem c9_witness :
    hasCol exEmpty "State/UTs" = false ∧
    load_data (.ok exEmpty) (.ok exEmpty) (.ok exEmpty) (.ok exEmpty)
      = .raised (.keyError "State") :=
  ⟨by decide,
   c9_missing_name_column_raises exEmpty exEmpty exEmpty exEmpty
     (by decide) (by decide) (cleanable_empty _) (cleanable_empty _) (cleanable_empty _)⟩

end Forestry
